import Mathlib

/-!
QDEC example application (`main.c`): the report callback and its angular-velocity arithmetic.

The development embeds `qdec_event_handler` of `main.c` together with the constants it
uses.  C `float` and `double` values are modelled by `Fl`, a sign/magnitude view of an
IEEE-754 binary value whose finite magnitudes are rationals; every arithmetic operation
computes the exact rational result and rounds it once, to nearest with ties to even, into
the format of the C expression (`binary32` for `float`, `binary64` for `double`).
-/

namespace QdecTester

/-! ## Binary floating-point formats and rounding -/

/-- A binary interchange format: precision in bits, smallest and largest normal exponent. -/
structure Format where
  prec : ℕ
  emin : ℤ
  emax : ℤ

/-- The format of a C `float` on the target. -/
def binary32 : Format := ⟨24, -126, 127⟩

/-- The format of a C `double` on the target. -/
def binary64 : Format := ⟨53, -1022, 1023⟩

/-- Round a nonnegative quantity to the nearest natural number, ties to the even one. -/
def roundHalfEven {α : Type} [LinearOrderedField α] [FloorRing α] (y : α) : ℕ :=
  if 2 * (y - (⌊y⌋₊ : α)) < 1 then ⌊y⌋₊
  else if 1 < 2 * (y - (⌊y⌋₊ : α)) then ⌊y⌋₊ + 1
  else if ⌊y⌋₊ % 2 = 0 then ⌊y⌋₊ else ⌊y⌋₊ + 1

/-- Round a magnitude into format `F` (round to nearest, ties to even, gradual underflow).
`none` is overflow: the rounded magnitude exceeds the largest finite value of `F`. -/
def roundMag {α : Type} [LinearOrderedField α] [FloorRing α] (F : Format) (x : α) : Option ℚ :=
  if x ≤ 0 then some 0
  else if (2 : ℚ) ^ (F.emax + 1)
      ≤ (roundHalfEven (x / 2 ^ (max (Int.log 2 x) F.emin - ((F.prec : ℤ) - 1))) : ℚ)
        * 2 ^ (max (Int.log 2 x) F.emin - ((F.prec : ℤ) - 1)) then none
  else some ((roundHalfEven (x / 2 ^ (max (Int.log 2 x) F.emin - ((F.prec : ℤ) - 1))) : ℚ)
        * 2 ^ (max (Int.log 2 x) F.emin - ((F.prec : ℤ) - 1)))

/-- A floating-point datum: a NaN, a signed infinity, or a signed finite magnitude
(`fin s 0` are the two zeros). -/
inductive Fl where
  | nan : Fl
  | inf (neg : Bool) : Fl
  | fin (neg : Bool) (mag : ℚ) : Fl
  deriving DecidableEq

namespace Fl

/-- Deliver the rounded result with the given sign; overflow gives the infinity. -/
def round (F : Format) (neg : Bool) (x : ℚ) : Fl :=
  match roundMag F x with
  | some r => fin neg r
  | none => inf neg

/-- Conversion of an integer (C cast of `int32_t` or `uint32_t` to `float`/`double`). -/
def ofInt (F : Format) (n : ℤ) : Fl := round F (decide (n < 0)) (|n| : ℤ)

/-- A decimal floating constant of the source, correctly rounded into `F`. -/
def lit (F : Format) (q : ℚ) : Fl := round F (decide (q < 0)) |q|

/-- Conversion between formats (C conversion `float` to `double` and back). -/
def cvt (F : Format) : Fl → Fl
  | nan => nan
  | inf s => inf s
  | fin s m => round F s m

/-- IEEE multiplication in format `F`. -/
def mul (F : Format) : Fl → Fl → Fl
  | nan, _ => nan
  | _, nan => nan
  | inf s, inf t => inf (xor s t)
  | inf s, fin t k => if k = 0 then nan else inf (xor s t)
  | fin s m, inf t => if m = 0 then nan else inf (xor s t)
  | fin s m, fin t k => round F (xor s t) (m * k)

/-- IEEE division in format `F`. -/
def div (F : Format) : Fl → Fl → Fl
  | nan, _ => nan
  | _, nan => nan
  | inf _, inf _ => nan
  | inf s, fin t _ => inf (xor s t)
  | fin s _, inf t => fin (xor s t) 0
  | fin s m, fin t k =>
    if k = 0 then (if m = 0 then nan else inf (xor s t)) else round F (xor s t) (m / k)

/-- IEEE negation (C unary minus on a floating value). -/
def neg : Fl → Fl
  | nan => nan
  | inf s => inf (!s)
  | fin s m => fin (!s) m

/-- The C comparison `==` on floating values: NaN equals nothing, the two zeros are equal. -/
def eq : Fl → Fl → Bool
  | inf s, inf t => s == t
  | fin s m, fin t k => (m == k) && ((s == t) || (m == 0))
  | _, _ => false

/-- The rational a finite datum stands for (`0` for the data that stand for none). -/
def value : Fl → ℚ
  | fin s m => if s then -m else m
  | _ => 0

/-- A finite datum of sign `s` whose magnitude lies between `2^a` and `2^b`. -/
def Between (f : Fl) (s : Bool) (a b : ℤ) : Prop :=
  ∃ r : ℚ, f = fin s r ∧ (2 : ℚ) ^ a ≤ r ∧ r ≤ (2 : ℚ) ^ b

end Fl

/-! ## The program -/

/-- The globals `m_report_ready_flag`, `m_first_report_flag`, `m_accdblread`, `m_accread`. -/
structure Globals where
  m_report_ready_flag : Bool
  m_first_report_flag : Bool
  m_accdblread : ℕ
  m_accread : ℤ
  deriving DecidableEq

/-- The initial values of the globals (the two without initialiser are zeroed). -/
def Globals.init : Globals := ⟨false, true, 0, 0⟩

/-- Modelled from the spec: the event kinds of the driver header (`nrf_qdec_event_t`, not
in the source tree); the handler names two of them and falls through on any other. -/
inductive nrf_qdec_event_t where
  | NRF_QDEC_EVENT_SAMPLERDY
  | NRF_QDEC_EVENT_REPORTRDY
  | NRF_QDEC_EVENT_OTHER
  deriving DecidableEq

/-- Modelled from the spec: the event record of the driver header (`nrf_drv_qdec_event_t`,
not in the source tree): a kind, the sample value, and the report sample with a signed
32-bit accumulator and an unsigned 32-bit double-transition accumulator. -/
structure nrf_drv_qdec_event_t where
  type : nrf_qdec_event_t
  sample_value : ℤ
  report_acc : ℤ
  report_accdbl : ℕ
  deriving DecidableEq

/-- The argument printed by one `NRF_LOG_INFO` call. -/
inductive LogArg where
  | none : LogArg
  | int (v : ℤ) : LogArg
  | float_of_int (v : ℤ) : LogArg
  | float (v : Fl) : LogArg
  deriving DecidableEq

/-- One `NRF_LOG_INFO` call: the label literal of its format string (up to the float
marker, where there is one) and the value printed. -/
structure LogEntry where
  label : String
  arg : LogArg
  deriving DecidableEq

/-- The macro `#define QENC_WINDOWS 120.00`, a `double` constant. -/
def QENC_WINDOWS : Fl := Fl.lit binary64 120

/-- The macro `#define TIME_UNIT_CONVERSION 1000000.00`, a `double` constant. -/
def TIME_UNIT_CONVERSION : Fl := Fl.lit binary64 1000000

/-- The global `float M_PIx2 = 2*3.1415927410125;`: the product is taken in `double`, the
initialiser is converted to `float`. -/
def M_PIx2 : Fl :=
  Fl.cvt binary32
    (Fl.mul binary64 (Fl.ofInt binary64 2) (Fl.lit binary64 (31415927410125 / 10000000000000)))

/-- Line 109: `M_PIx2 / (QENC_WINDOWS * (f_reportper * f_sampleper/TIME_UNIT_CONVERSION))`
assigned to a `float`; the period product is a `float` product, the other three
operations have a `double` operand and are `double` operations. -/
def M_PIx2_over_windows_x_sample_period_len (int_sampleper int_reportper : ℕ) : Fl :=
  let f_reportper := Fl.ofInt binary32 int_reportper
  let f_sampleper := Fl.ofInt binary32 int_sampleper
  Fl.cvt binary32
    (Fl.div binary64 (Fl.cvt binary64 M_PIx2)
      (Fl.mul binary64 QENC_WINDOWS
        (Fl.div binary64 (Fl.cvt binary64 (Fl.mul binary32 f_reportper f_sampleper))
          TIME_UNIT_CONVERSION)))

/-- Line 110: `(float)m_accread * M_PIx2_over_windows_x_sample_period_len`. -/
def angular_velocity (m_accread : ℤ) (int_sampleper int_reportper : ℕ) : Fl :=
  Fl.mul binary32 (Fl.ofInt binary32 m_accread)
    (M_PIx2_over_windows_x_sample_period_len int_sampleper int_reportper)

/-- The body of the `NRF_QDEC_EVENT_REPORTRDY` branch (lines 89 to 122): the three
stores, then the eleven log calls; `m_accread` is read back from the global. -/
def report_branch (int_sampleper int_reportper : ℕ) (g : Globals)
    (event : nrf_drv_qdec_event_t) : Globals × List LogEntry :=
  let g1 : Globals := { g with m_accdblread := event.report_accdbl }
  let g2 : Globals := { g1 with m_accread := event.report_acc }
  let g3 : Globals := { g2 with m_report_ready_flag := true }
  let f_reportper := Fl.ofInt binary32 int_reportper
  let f_sampleper := Fl.ofInt binary32 int_sampleper
  (g3,
   [ ⟨"m_accread: %d\n", LogArg.int g3.m_accread⟩,
     ⟨"m_accread: ", LogArg.float_of_int g3.m_accread⟩,
     ⟨"int_sampleper: %d\n", LogArg.int int_sampleper⟩,
     ⟨"int_reportper: %d\n", LogArg.int int_reportper⟩,
     ⟨"Pi * 2 : ", LogArg.float M_PIx2⟩,
     ⟨"QENC_WINDOWS : ", LogArg.float QENC_WINDOWS⟩,
     ⟨"f_sampleper : ", LogArg.float f_sampleper⟩,
     ⟨"f_reportper : ", LogArg.float f_reportper⟩,
     ⟨"TIME_UNIT_CONVERSION : ", LogArg.float TIME_UNIT_CONVERSION⟩,
     ⟨"M_PIx2_over_windows_x_sample_period_len : ",
       LogArg.float (M_PIx2_over_windows_x_sample_period_len int_sampleper int_reportper)⟩,
     ⟨"angular_velocity : ",
       LogArg.float (angular_velocity g3.m_accread int_sampleper int_reportper)⟩ ])

/-- The callback `qdec_event_handler` (lines 77 to 126).  The two period arguments are what
`nrf_qdec_sampleper_to_value(QDEC_CONFIG_SAMPLEPER)` and
`nrf_qdec_reportper_to_value(QDEC_CONFIG_REPORTPER)` return (driver code outside the
source tree).  The result is the globals after the call and the log lines emitted. -/
def qdec_event_handler (int_sampleper int_reportper : ℕ) (g : Globals)
    (event : nrf_drv_qdec_event_t) : Globals × List LogEntry :=
  let r : Globals × List LogEntry :=
    if event.type = nrf_qdec_event_t.NRF_QDEC_EVENT_SAMPLERDY then (g, [])
    else if event.type = nrf_qdec_event_t.NRF_QDEC_EVENT_REPORTRDY then
      report_branch int_sampleper int_reportper g event
    else (g, [])
  (r.1, r.2 ++ [⟨"event\r\n", LogArg.none⟩])

/-- The exact reading of lines 109 and 110: the same expression, in the same order, with
every operation taken over the rationals and no rounding; `M_PIx2` enters by its stored
value. -/
def angular_velocity_exact (m_accread : ℤ) (int_sampleper int_reportper : ℕ) : ℚ :=
  (m_accread : ℚ)
    * (M_PIx2.value / (120 * ((int_reportper : ℚ) * (int_sampleper : ℚ) / 1000000)))

/-- The formula of the specification, `acc * (2*PI_f32) / (120.0 * (sp*rp/1_000_000.0))`,
evaluated as the specification words it: in the order written, every operation and every
constant in single precision. -/
def estimate_spec_f32 (acc : ℤ) (sp rp : ℕ) : Fl :=
  Fl.div binary32 (Fl.mul binary32 (Fl.ofInt binary32 acc) M_PIx2)
    (Fl.mul binary32 (Fl.lit binary32 120)
      (Fl.div binary32 (Fl.mul binary32 (Fl.ofInt binary32 sp) (Fl.ofInt binary32 rp))
        (Fl.lit binary32 1000000)))

/-- Line 109 in its own order of operations, but with every constant and every operation
in single precision (what the line would compute were its two constants `float`s). -/
def factor_single_precision (int_sampleper int_reportper : ℕ) : Fl :=
  Fl.div binary32 M_PIx2
    (Fl.mul binary32 (Fl.lit binary32 120)
      (Fl.div binary32
        (Fl.mul binary32 (Fl.ofInt binary32 int_reportper) (Fl.ofInt binary32 int_sampleper))
        (Fl.lit binary32 1000000)))

/-- Reduction of an integer into the range of `int32_t` (two's complement). -/
def toInt32 (x : ℤ) : ℤ := (x + 2147483648) % 4294967296 - 2147483648

/-- Negation taken in `int32_t`, the type of `m_accread`. -/
def neg32 (x : ℤ) : ℤ := toInt32 (-x)

/-- The log lines that print a value. -/
def labelled_values (log : List LogEntry) : List LogEntry :=
  log.filter (fun l => decide (l.arg ≠ LogArg.none))

/-! ## Rounding lemmas -/

theorem roundHalfEven_eq {α : Type} [LinearOrderedField α] [FloorRing α] (y : α) (n : ℕ)
    (h1 : 2 * (n : α) - 1 < 2 * y) (h2 : 2 * y < 2 * (n : α) + 1) : roundHalfEven y = n := by
  rcases le_or_lt (n : α) y with h | h
  · have hy0 : 0 ≤ y := le_trans (Nat.cast_nonneg n) h
    have hf : ⌊y⌋₊ = n := (Nat.floor_eq_iff hy0).2 ⟨h, by linarith⟩
    unfold roundHalfEven
    rw [hf, if_pos (by linarith)]
  · rcases n with _ | m
    · simp only [Nat.cast_zero] at h1 h2 h
      have hf : ⌊y⌋₊ = 0 := Nat.floor_of_nonpos (le_of_lt h)
      unfold roundHalfEven
      rw [hf, if_pos (by simp only [Nat.cast_zero]; linarith)]
    push_cast at h1 h2 h
    have hy0 : 0 ≤ y := by
      have : (0 : α) ≤ m := Nat.cast_nonneg m
      linarith
    have hf : ⌊y⌋₊ = m := (Nat.floor_eq_iff hy0).2 ⟨by linarith, by linarith⟩
    unfold roundHalfEven
    rw [hf, if_neg (by linarith), if_pos (by linarith)]

theorem log_eq_of_binade {α : Type} [LinearOrderedField α] [FloorRing α] (x : α) (e : ℤ)
    (hlo : (2 : α) ^ e ≤ x) (hhi : x < (2 : α) ^ (e + 1)) : Int.log 2 x = e := by
  have hx : 0 < x := lt_of_lt_of_le (zpow_pos (by norm_num) e) hlo
  apply le_antisymm
  · have := (Int.lt_zpow_iff_log_lt (R := α) (b := 2) (by norm_num) hx (x := e + 1)).1
      (by exact_mod_cast hhi)
    omega
  · exact (Int.zpow_le_iff_le_log (R := α) (b := 2) (by norm_num) hx).1 (by exact_mod_cast hlo)

theorem floor_le_roundHalfEven {α : Type} [LinearOrderedField α] [FloorRing α] (y : α) :
    ⌊y⌋₊ ≤ roundHalfEven y := by
  unfold roundHalfEven
  split_ifs <;> omega

theorem roundHalfEven_le_floor_succ {α : Type} [LinearOrderedField α] [FloorRing α] (y : α) :
    roundHalfEven y ≤ ⌊y⌋₊ + 1 := by
  unfold roundHalfEven
  split_ifs <;> omega

/-- Evaluation of `roundMag` from a certificate: the binade `e` of `x` and the rounded
significand `n`. -/
theorem roundMag_eq {α : Type} [LinearOrderedField α] [FloorRing α] (F : Format) (x : α)
    (e : ℤ) (n : ℕ) (hlo : (2 : α) ^ e ≤ x) (hhi : x < (2 : α) ^ (e + 1)) (hmin : F.emin ≤ e)
    (h1 : 2 * (n : α) - 1 < 2 * (x / 2 ^ (e - ((F.prec : ℤ) - 1))))
    (h2 : 2 * (x / 2 ^ (e - ((F.prec : ℤ) - 1))) < 2 * (n : α) + 1)
    (hov : (n : ℚ) * 2 ^ (e - ((F.prec : ℤ) - 1)) < 2 ^ (F.emax + 1)) :
    roundMag F x = some ((n : ℚ) * 2 ^ (e - ((F.prec : ℤ) - 1))) := by
  have hx : 0 < x := lt_of_lt_of_le (zpow_pos (by norm_num) e) hlo
  unfold roundMag
  rw [if_neg (not_le.2 hx), log_eq_of_binade x e hlo hhi, max_eq_left hmin,
    roundHalfEven_eq _ n h1 h2,
    if_neg (not_le.2 hov)]

theorem Fl.round_eq (F : Format) (s : Bool) (x : ℚ) (e : ℤ) (n : ℕ) (r : ℚ)
    (hlo : (2 : ℚ) ^ e ≤ x) (hhi : x < (2 : ℚ) ^ (e + 1)) (hmin : F.emin ≤ e)
    (h1 : 2 * (n : ℚ) - 1 < 2 * (x / 2 ^ (e - ((F.prec : ℤ) - 1))))
    (h2 : 2 * (x / 2 ^ (e - ((F.prec : ℤ) - 1))) < 2 * (n : ℚ) + 1)
    (hov : (n : ℚ) * 2 ^ (e - ((F.prec : ℤ) - 1)) < 2 ^ (F.emax + 1))
    (hr : (n : ℚ) * 2 ^ (e - ((F.prec : ℤ) - 1)) = r) :
    Fl.round F s x = Fl.fin s r := by
  unfold Fl.round
  rw [roundMag_eq F x e n hlo hhi hmin h1 h2 hov, hr]

/-- A magnitude in the binade `[2^e, 2^(e+1))` of a normal exponent below `emax` rounds
to a finite magnitude of the closed binade. -/
theorem roundMag_of_binade (F : Format) (x : ℚ) (e : ℤ) (hp : 1 ≤ F.prec)
    (hlo : (2 : ℚ) ^ e ≤ x) (hhi : x < (2 : ℚ) ^ (e + 1)) (hmin : F.emin ≤ e)
    (hmax : e < F.emax) :
    ∃ r, roundMag F x = some r ∧ (2 : ℚ) ^ e ≤ r ∧ r ≤ (2 : ℚ) ^ (e + 1) := by
  have hx : 0 < x := lt_of_lt_of_le (zpow_pos (by norm_num) e) hlo
  obtain ⟨p, hpe⟩ : ∃ p, F.prec = p + 1 := ⟨F.prec - 1, by omega⟩
  have hq : (0 : ℚ) < 2 ^ (e - (((p + 1 : ℕ) : ℤ) - 1)) := zpow_pos (by norm_num) _
  have hsplit : (2 : ℚ) ^ e = 2 ^ p * 2 ^ (e - (((p + 1 : ℕ) : ℤ) - 1)) := by
    rw [← zpow_natCast, ← zpow_add₀ (by norm_num)]
    congr 1
    push_cast
    ring
  have hsplit1 : (2 : ℚ) ^ (e + 1) = 2 ^ (p + 1) * 2 ^ (e - (((p + 1 : ℕ) : ℤ) - 1)) := by
    rw [← zpow_natCast, ← zpow_add₀ (by norm_num)]
    congr 1
    push_cast
    ring
  have hy0 : 0 ≤ x / 2 ^ (e - (((p + 1 : ℕ) : ℤ) - 1)) := le_of_lt (div_pos hx hq)
  have hn1 : 2 ^ p ≤ roundHalfEven (x / 2 ^ (e - (((p + 1 : ℕ) : ℤ) - 1))) := by
    refine le_trans (Nat.le_floor ?_) (floor_le_roundHalfEven _)
    rw [le_div_iff₀ hq, Nat.cast_pow, Nat.cast_ofNat, ← hsplit]
    exact hlo
  have hn2 : roundHalfEven (x / 2 ^ (e - (((p + 1 : ℕ) : ℤ) - 1))) ≤ 2 ^ (p + 1) := by
    have hfl : ⌊x / 2 ^ (e - (((p + 1 : ℕ) : ℤ) - 1))⌋₊ < 2 ^ (p + 1) := by
      rw [Nat.floor_lt hy0, div_lt_iff₀ hq, Nat.cast_pow, Nat.cast_ofNat, ← hsplit1]
      exact hhi
    have := roundHalfEven_le_floor_succ (x / 2 ^ (e - (((p + 1 : ℕ) : ℤ) - 1)))
    omega
  have hr1 : (2 : ℚ) ^ e
      ≤ (roundHalfEven (x / 2 ^ (e - (((p + 1 : ℕ) : ℤ) - 1))) : ℚ)
        * 2 ^ (e - (((p + 1 : ℕ) : ℤ) - 1)) := by
    rw [hsplit]
    apply mul_le_mul_of_nonneg_right _ (le_of_lt hq)
    exact_mod_cast hn1
  have hr2 : (roundHalfEven (x / 2 ^ (e - (((p + 1 : ℕ) : ℤ) - 1))) : ℚ)
        * 2 ^ (e - (((p + 1 : ℕ) : ℤ) - 1)) ≤ (2 : ℚ) ^ (e + 1) := by
    rw [hsplit1]
    apply mul_le_mul_of_nonneg_right _ (le_of_lt hq)
    exact_mod_cast hn2
  have hov : (2 : ℚ) ^ (e + 1) < 2 ^ (F.emax + 1) :=
    zpow_lt_zpow_right₀ (by norm_num) (by omega)
  refine ⟨_, ?_, hr1, hr2⟩
  unfold roundMag
  rw [if_neg (not_le.2 hx), log_eq_of_binade x e hlo hhi, max_eq_left hmin, hpe,
    if_neg (not_le.2 (lt_of_le_of_lt hr2 hov))]

/-- A magnitude between two powers of two inside the normal range rounds to a finite
magnitude between the same powers of two. -/
theorem roundMag_bounds (F : Format) (x : ℚ) (a b : ℤ) (hp : 1 ≤ F.prec)
    (hlo : (2 : ℚ) ^ a ≤ x) (hhi : x < (2 : ℚ) ^ b) (hmin : F.emin ≤ a) (hmax : b ≤ F.emax) :
    ∃ r, roundMag F x = some r ∧ (2 : ℚ) ^ a ≤ r ∧ r ≤ (2 : ℚ) ^ b := by
  have hx : 0 < x := lt_of_lt_of_le (zpow_pos (by norm_num) a) hlo
  have hae : a ≤ Int.log 2 x :=
    (Int.zpow_le_iff_le_log (R := ℚ) (b := 2) (by norm_num) hx).1 (by exact_mod_cast hlo)
  have heb : Int.log 2 x < b :=
    (Int.lt_zpow_iff_log_lt (R := ℚ) (b := 2) (by norm_num) hx).1 (by exact_mod_cast hhi)
  have hle : (2 : ℚ) ^ Int.log 2 x ≤ x := by
    exact_mod_cast Int.zpow_log_le_self (R := ℚ) (b := 2) (by norm_num) hx
  have hlt : x < (2 : ℚ) ^ (Int.log 2 x + 1) := by
    exact_mod_cast Int.lt_zpow_succ_log_self (R := ℚ) (b := 2) (by norm_num) x
  obtain ⟨r, hr, h1, h2⟩ :=
    roundMag_of_binade F x (Int.log 2 x) hp hle hlt (by omega) (by omega)
  refine ⟨r, hr, le_trans ?_ h1, le_trans h2 ?_⟩
  · exact zpow_le_zpow_right₀ (by norm_num) hae
  · exact zpow_le_zpow_right₀ (by norm_num) (by omega)

/-! ## Rounding steps of the constants and of the report sample `acc = 30`, `sp = 400`, `rp = 16` -/

theorem rnd_pi_literal :
    Fl.round binary64 false (31415927410125 / 10000000000000) = Fl.fin false (7074237948886875 / 2251799813685248) := by
  apply Fl.round_eq binary64 false _ (1) 7074237948886875 <;> norm_num [binary64]

theorem rnd_two :
    Fl.round binary64 false (2) = Fl.fin false (2) := by
  apply Fl.round_eq binary64 false _ (1) 4503599627370496 <;> norm_num [binary64]

theorem rnd_two_pi :
    Fl.round binary64 false (2 * (7074237948886875 / 2251799813685248)) = Fl.fin false (7074237948886875 / 1125899906842624) := by
  apply Fl.round_eq binary64 false _ (2) 7074237948886875 <;> norm_num [binary64]

theorem rnd_M_PIx2 :
    Fl.round binary32 false (7074237948886875 / 1125899906842624) = Fl.fin false (13176795 / 2097152) := by
  apply Fl.round_eq binary32 false _ (2) 13176795 <;> norm_num [binary32]

theorem rnd_windows :
    Fl.round binary64 false (120) = Fl.fin false (120) := by
  apply Fl.round_eq binary64 false _ (6) 8444249301319680 <;> norm_num [binary64]

theorem rnd_time_unit :
    Fl.round binary64 false (1000000) = Fl.fin false (1000000) := by
  apply Fl.round_eq binary64 false _ (19) 8589934592000000 <;> norm_num [binary64]

theorem rnd_16 :
    Fl.round binary32 false (16) = Fl.fin false (16) := by
  apply Fl.round_eq binary32 false _ (4) 8388608 <;> norm_num [binary32]

theorem rnd_400 :
    Fl.round binary32 false (400) = Fl.fin false (400) := by
  apply Fl.round_eq binary32 false _ (8) 13107200 <;> norm_num [binary32]

theorem rnd_prod :
    Fl.round binary32 false (16 * 400) = Fl.fin false (6400) := by
  apply Fl.round_eq binary32 false _ (12) 13107200 <;> norm_num [binary32]

theorem rnd_prod64 :
    Fl.round binary64 false (6400) = Fl.fin false (6400) := by
  apply Fl.round_eq binary64 false _ (12) 7036874417766400 <;> norm_num [binary64]

theorem rnd_elapsed :
    Fl.round binary64 false (6400 / 1000000) = Fl.fin false (7378697629483821 / 1152921504606846976) := by
  apply Fl.round_eq binary64 false _ (-8) 7378697629483821 <;> norm_num [binary64]

theorem rnd_denominator :
    Fl.round binary64 false (120 * (7378697629483821 / 1152921504606846976)) = Fl.fin false (3458764513820541 / 4503599627370496) := by
  apply Fl.round_eq binary64 false _ (-1) 6917529027641082 <;> norm_num [binary64]

theorem rnd_M64 :
    Fl.round binary64 false (13176795 / 2097152) = Fl.fin false (13176795 / 2097152) := by
  apply Fl.round_eq binary64 false _ (2) 7074237948887040 <;> norm_num [binary64]

theorem rnd_factor64 :
    Fl.round binary64 false ((13176795 / 2097152) / (3458764513820541 / 4503599627370496)) = Fl.fin false (549033125 / 67108864) := by
  apply Fl.round_eq binary64 false _ (3) 4605623664640000 <;> norm_num [binary64]

theorem rnd_factor :
    Fl.round binary32 false (549033125 / 67108864) = Fl.fin false (8578643 / 1048576) := by
  apply Fl.round_eq binary32 false _ (3) 8578643 <;> norm_num [binary32]

theorem rnd_30 :
    Fl.round binary32 false (30) = Fl.fin false (30) := by
  apply Fl.round_eq binary32 false _ (4) 15728640 <;> norm_num [binary32]

theorem rnd_velocity :
    Fl.round binary32 false (30 * (8578643 / 1048576)) = Fl.fin false (4021239 / 16384) := by
  apply Fl.round_eq binary32 false _ (7) 16084956 <;> norm_num [binary32]

theorem rnd_int_min :
    Fl.round binary32 true (2147483648) = Fl.fin true (2147483648) := by
  apply Fl.round_eq binary32 true _ (31) 8388608 <;> norm_num [binary32]

theorem rnd_velocity_int_min :
    Fl.round binary32 true (2147483648 * (8578643 / 1048576)) = Fl.fin true (17569060864) := by
  apply Fl.round_eq binary32 true _ (34) 8578643 <;> norm_num [binary32]

theorem rnd_spec_numerator :
    Fl.round binary32 false (30 * (13176795 / 2097152)) = Fl.fin false (12353245 / 65536) := by
  apply Fl.round_eq binary32 false _ (7) 12353245 <;> norm_num [binary32]

theorem rnd_spec_prod :
    Fl.round binary32 false (400 * 16) = Fl.fin false (6400) := by
  apply Fl.round_eq binary32 false _ (12) 13107200 <;> norm_num [binary32]

theorem rnd_spec_time_unit :
    Fl.round binary32 false (1000000) = Fl.fin false (1000000) := by
  apply Fl.round_eq binary32 false _ (19) 16000000 <;> norm_num [binary32]

theorem rnd_spec_windows :
    Fl.round binary32 false (120) = Fl.fin false (120) := by
  apply Fl.round_eq binary32 false _ (6) 15728640 <;> norm_num [binary32]

theorem rnd_spec_elapsed :
    Fl.round binary32 false (6400 / 1000000) = Fl.fin false (13743895 / 2147483648) := by
  apply Fl.round_eq binary32 false _ (-8) 13743895 <;> norm_num [binary32]

theorem rnd_spec_denominator :
    Fl.round binary32 false (120 * (13743895 / 2147483648)) = Fl.fin false (6442451 / 8388608) := by
  apply Fl.round_eq binary32 false _ (-1) 12884902 <;> norm_num [binary32]

theorem rnd_spec_velocity :
    Fl.round binary32 false ((12353245 / 65536) / (6442451 / 8388608)) = Fl.fin false (8042477 / 32768) := by
  apply Fl.round_eq binary32 false _ (7) 16084954 <;> norm_num [binary32]

/-! ## Rounding steps of the conversion factor for `sp = 128`, `rp = 10` -/

theorem rnd_10 :
    Fl.round binary32 false (10) = Fl.fin false (10) := by
  apply Fl.round_eq binary32 false _ (3) 10485760 <;> norm_num [binary32]

theorem rnd_128 :
    Fl.round binary32 false (128) = Fl.fin false (128) := by
  apply Fl.round_eq binary32 false _ (7) 8388608 <;> norm_num [binary32]

theorem rnd_prod_128_10 :
    Fl.round binary32 false (10 * 128) = Fl.fin false (1280) := by
  apply Fl.round_eq binary32 false _ (10) 10485760 <;> norm_num [binary32]

theorem rnd_prod64_128_10 :
    Fl.round binary64 false (1280) = Fl.fin false (1280) := by
  apply Fl.round_eq binary64 false _ (10) 5629499534213120 <;> norm_num [binary64]

theorem rnd_elapsed_128_10 :
    Fl.round binary64 false (1280 / 1000000) = Fl.fin false (5902958103587057 / 4611686018427387904) := by
  apply Fl.round_eq binary64 false _ (-10) 5902958103587057 <;> norm_num [binary64]

theorem rnd_denominator_128_10 :
    Fl.round binary64 false (120 * (5902958103587057 / 4611686018427387904)) = Fl.fin false (2767011611056433 / 18014398509481984) := by
  apply Fl.round_eq binary64 false _ (-3) 5534023222112866 <;> norm_num [binary64]

theorem rnd_factor64_128_10 :
    Fl.round binary64 false ((13176795 / 2097152) / (2767011611056433 / 18014398509481984)) = Fl.fin false (5757029580799999 / 140737488355328) := by
  apply Fl.round_eq binary64 false _ (5) 5757029580799999 <;> norm_num [binary64]

theorem rnd_factor_128_10 :
    Fl.round binary32 false (5757029580799999 / 140737488355328) = Fl.fin false (10723303 / 262144) := by
  apply Fl.round_eq binary32 false _ (5) 10723303 <;> norm_num [binary32]

theorem rnd_single_elapsed_128_10 :
    Fl.round binary32 false (1280 / 1000000) = Fl.fin false (2748779 / 2147483648) := by
  apply Fl.round_eq binary32 false _ (-10) 10995116 <;> norm_num [binary32]

theorem rnd_single_denominator_128_10 :
    Fl.round binary32 false (120 * (2748779 / 2147483648)) = Fl.fin false (10307921 / 67108864) := by
  apply Fl.round_eq binary32 false _ (-3) 10307921 <;> norm_num [binary32]

theorem rnd_single_factor_128_10 :
    Fl.round binary32 false ((13176795 / 2097152) / (10307921 / 67108864)) = Fl.fin false (1340413 / 32768) := by
  apply Fl.round_eq binary32 false _ (5) 10723304 <;> norm_num [binary32]

/-! ## Unfolding the operations on finite operands -/

theorem Fl.ofInt_natCast (F : Format) (n : ℕ) :
    Fl.ofInt F (n : ℤ) = Fl.round F false (n : ℚ) := by
  unfold Fl.ofInt
  have h : decide ((n : ℤ) < 0) = false := by simp
  rw [h, abs_of_nonneg (Int.natCast_nonneg n), Int.cast_natCast]

theorem Fl.ofInt_neg_natCast (F : Format) (n : ℕ) (hn : 0 < n) :
    Fl.ofInt F (-(n : ℤ)) = Fl.round F true (n : ℚ) := by
  unfold Fl.ofInt
  have h : decide (-(n : ℤ) < 0) = true := by simp [hn]
  rw [h, abs_neg, abs_of_nonneg (Int.natCast_nonneg n), Int.cast_natCast]

theorem Fl.lit_of_nonneg (F : Format) (q : ℚ) (hq : 0 ≤ q) :
    Fl.lit F q = Fl.round F false q := by
  unfold Fl.lit
  have h : decide (q < 0) = false := by simp [hq]
  rw [h, abs_of_nonneg hq]

theorem Fl.mul_fin (F : Format) (s t : Bool) (m k : ℚ) :
    Fl.mul F (Fl.fin s m) (Fl.fin t k) = Fl.round F (xor s t) (m * k) := rfl

theorem Fl.div_fin (F : Format) (s t : Bool) (m k : ℚ) (hk : k ≠ 0) :
    Fl.div F (Fl.fin s m) (Fl.fin t k) = Fl.round F (xor s t) (m / k) := by
  simp [Fl.div, hk]

theorem Fl.cvt_fin (F : Format) (s : Bool) (m : ℚ) :
    Fl.cvt F (Fl.fin s m) = Fl.round F s m := rfl

/-! ## Values of the constants -/

theorem QENC_WINDOWS_eq : QENC_WINDOWS = Fl.fin false 120 := by
  unfold QENC_WINDOWS
  rw [Fl.lit_of_nonneg _ _ (by norm_num), rnd_windows]

theorem TIME_UNIT_CONVERSION_eq : TIME_UNIT_CONVERSION = Fl.fin false 1000000 := by
  unfold TIME_UNIT_CONVERSION
  rw [Fl.lit_of_nonneg _ _ (by norm_num), rnd_time_unit]

theorem M_PIx2_eq : M_PIx2 = Fl.fin false (13176795 / 2097152) := by
  unfold M_PIx2
  have h2 : Fl.ofInt binary64 2 = Fl.fin false 2 := by
    have h := Fl.ofInt_natCast binary64 2
    simp only [Nat.cast_ofNat] at h
    rw [h, rnd_two]
  rw [h2, Fl.lit_of_nonneg _ _ (by norm_num), rnd_pi_literal, Fl.mul_fin, Bool.xor_false,
    rnd_two_pi, Fl.cvt_fin, rnd_M_PIx2]

/-! ## Ranges of the operations -/

theorem Fl.round_between (F : Format) (s : Bool) (x : ℚ) (a b : ℤ) (hp : 1 ≤ F.prec)
    (hlo : (2 : ℚ) ^ a ≤ x) (hhi : x ≤ (2 : ℚ) ^ b) (hmin : F.emin ≤ a)
    (hmax : b + 1 ≤ F.emax) : Fl.Between (Fl.round F s x) s a (b + 1) := by
  have hlt : x < (2 : ℚ) ^ (b + 1) :=
    lt_of_le_of_lt hhi (zpow_lt_zpow_right₀ (by norm_num) (by omega))
  obtain ⟨r, hr, h1, h2⟩ := roundMag_bounds F x a (b + 1) hp hlo hlt hmin hmax
  refine ⟨r, ?_, h1, h2⟩
  unfold Fl.round
  rw [hr]

theorem Fl.mul_between (F : Format) (f g : Fl) (s t : Bool) (a b c d : ℤ) (hp : 1 ≤ F.prec)
    (hf : f.Between s a b) (hg : g.Between t c d) (hmin : F.emin ≤ a + c)
    (hmax : b + d + 1 ≤ F.emax) :
    (Fl.mul F f g).Between (xor s t) (a + c) (b + d + 1) := by
  obtain ⟨m, rfl, hm1, hm2⟩ := hf
  obtain ⟨k, rfl, hk1, hk2⟩ := hg
  have ha : (0 : ℚ) < 2 ^ a := zpow_pos (by norm_num) a
  have hc : (0 : ℚ) < 2 ^ c := zpow_pos (by norm_num) c
  rw [Fl.mul_fin]
  apply Fl.round_between F _ _ _ _ hp _ _ hmin hmax
  · rw [zpow_add₀ (by norm_num)]
    exact mul_le_mul hm1 hk1 (le_of_lt hc) (le_trans (le_of_lt ha) hm1)
  · rw [zpow_add₀ (by norm_num)]
    exact mul_le_mul hm2 hk2 (le_trans (le_of_lt hc) hk1) (le_of_lt (zpow_pos (by norm_num) b))

theorem Fl.div_between (F : Format) (f g : Fl) (s t : Bool) (a b c d : ℤ) (hp : 1 ≤ F.prec)
    (hf : f.Between s a b) (hg : g.Between t c d) (hmin : F.emin ≤ a - d)
    (hmax : b - c + 1 ≤ F.emax) :
    (Fl.div F f g).Between (xor s t) (a - d) (b - c + 1) := by
  obtain ⟨m, rfl, hm1, hm2⟩ := hf
  obtain ⟨k, rfl, hk1, hk2⟩ := hg
  have ha : (0 : ℚ) < 2 ^ a := zpow_pos (by norm_num) a
  have hc : (0 : ℚ) < 2 ^ c := zpow_pos (by norm_num) c
  have hk : 0 < k := lt_of_lt_of_le hc hk1
  rw [Fl.div_fin _ _ _ _ _ (ne_of_gt hk)]
  apply Fl.round_between F _ _ _ _ hp _ _ hmin hmax
  · rw [zpow_sub₀ (by norm_num)]
    exact div_le_div₀ (le_trans (le_of_lt ha) hm1) hm1 hk hk2
  · rw [zpow_sub₀ (by norm_num)]
    exact div_le_div₀ (le_of_lt (zpow_pos (by norm_num) b)) hm2 hc hk1

theorem Fl.cvt_between (F : Format) (f : Fl) (s : Bool) (a b : ℤ) (hp : 1 ≤ F.prec)
    (hf : f.Between s a b) (hmin : F.emin ≤ a) (hmax : b + 1 ≤ F.emax) :
    (Fl.cvt F f).Between s a (b + 1) := by
  obtain ⟨m, rfl, hm1, hm2⟩ := hf
  rw [Fl.cvt_fin]
  exact Fl.round_between F s m a b hp hm1 hm2 hmin hmax

theorem Fl.ofInt_natCast_between (F : Format) (n : ℕ) (b : ℕ) (hp : 1 ≤ F.prec)
    (h1 : 1 ≤ n) (h2 : n ≤ 2 ^ b) (hmin : F.emin ≤ 0) (hmax : (b : ℤ) + 1 ≤ F.emax) :
    (Fl.ofInt F (n : ℤ)).Between false 0 ((b : ℤ) + 1) := by
  rw [Fl.ofInt_natCast]
  apply Fl.round_between F false _ 0 b hp _ _ hmin hmax
  · rw [zpow_zero]
    exact_mod_cast h1
  · rw [zpow_natCast]
    exact_mod_cast h2

/-- For positive periods of the `uint32_t` range the conversion factor of line 109 is a
positive finite `float`. -/
theorem factor_between (sp rp : ℕ) (hsp : 0 < sp) (hsp32 : sp < 2 ^ 32) (hrp : 0 < rp)
    (hrp32 : rp < 2 ^ 32) :
    (M_PIx2_over_windows_x_sample_period_len sp rp).Between false (-56) 20 := by
  have p32 : 1 ≤ binary32.prec := by decide
  have p64 : 1 ≤ binary64.prec := by decide
  have hfr : (Fl.ofInt binary32 (rp : ℤ)).Between false 0 33 :=
    Fl.ofInt_natCast_between binary32 rp 32 p32 hrp (le_of_lt hrp32) (by decide) (by decide)
  have hfs : (Fl.ofInt binary32 (sp : ℤ)).Between false 0 33 :=
    Fl.ofInt_natCast_between binary32 sp 32 p32 hsp (le_of_lt hsp32) (by decide) (by decide)
  have hprod := Fl.mul_between binary32 _ _ _ _ _ _ _ _ p32 hfr hfs (by decide) (by decide)
  have hprod64 := Fl.cvt_between binary64 _ _ _ _ p64 hprod (by decide) (by decide)
  have htime : TIME_UNIT_CONVERSION.Between false 19 20 :=
    ⟨1000000, TIME_UNIT_CONVERSION_eq, by norm_num, by norm_num⟩
  have hel := Fl.div_between binary64 _ _ _ _ _ _ _ _ p64 hprod64 htime (by decide) (by decide)
  have hwin : QENC_WINDOWS.Between false 6 7 :=
    ⟨120, QENC_WINDOWS_eq, by norm_num, by norm_num⟩
  have hden := Fl.mul_between binary64 _ _ _ _ _ _ _ _ p64 hwin hel (by decide) (by decide)
  have hM : M_PIx2.Between false 2 3 :=
    ⟨13176795 / 2097152, M_PIx2_eq, by norm_num, by norm_num⟩
  have hM64 := Fl.cvt_between binary64 _ _ _ _ p64 hM (by decide) (by decide)
  have hq := Fl.div_between binary64 _ _ _ _ _ _ _ _ p64 hM64 hden (by decide) (by decide)
  have hK := Fl.cvt_between binary32 _ _ _ _ p32 hq (by decide) (by decide)
  exact hK

/-! ## The report sample `acc = 30`, `sp = 400`, `rp = 16` -/

theorem report_period_400_16 :
    Fl.div binary64
        (Fl.cvt binary64
          (Fl.mul binary32 (Fl.ofInt binary32 ((16 : ℕ) : ℤ)) (Fl.ofInt binary32 ((400 : ℕ) : ℤ))))
        TIME_UNIT_CONVERSION
      = Fl.fin false (7378697629483821 / 1152921504606846976) := by
  have h16 : Fl.ofInt binary32 ((16 : ℕ) : ℤ) = Fl.fin false 16 := by
    rw [Fl.ofInt_natCast]; simpa using rnd_16
  have h400 : Fl.ofInt binary32 ((400 : ℕ) : ℤ) = Fl.fin false 400 := by
    rw [Fl.ofInt_natCast]; simpa using rnd_400
  rw [h16, h400, TIME_UNIT_CONVERSION_eq, Fl.mul_fin, Bool.xor_false, rnd_prod, Fl.cvt_fin,
    rnd_prod64, Fl.div_fin _ _ _ _ _ (by norm_num), Bool.xor_false, rnd_elapsed]

theorem factor_400_16 :
    M_PIx2_over_windows_x_sample_period_len 400 16 = Fl.fin false (8578643 / 1048576) := by
  unfold M_PIx2_over_windows_x_sample_period_len
  have h16 : Fl.ofInt binary32 ((16 : ℕ) : ℤ) = Fl.fin false 16 := by
    rw [Fl.ofInt_natCast]; simpa using rnd_16
  have h400 : Fl.ofInt binary32 ((400 : ℕ) : ℤ) = Fl.fin false 400 := by
    rw [Fl.ofInt_natCast]; simpa using rnd_400
  simp only [h16, h400, M_PIx2_eq, QENC_WINDOWS_eq, TIME_UNIT_CONVERSION_eq, Fl.mul_fin,
    Bool.xor_false, rnd_prod, Fl.cvt_fin, rnd_prod64, rnd_M64]
  rw [Fl.div_fin _ _ _ _ _ (by norm_num), Bool.xor_false, rnd_elapsed, Fl.mul_fin,
    Bool.xor_false, rnd_denominator, Fl.div_fin _ _ _ _ _ (by norm_num), Bool.xor_false,
    rnd_factor64, Fl.cvt_fin, rnd_factor]

theorem angular_velocity_30_400_16 :
    angular_velocity 30 400 16 = Fl.fin false (4021239 / 16384) := by
  unfold angular_velocity
  have h30 : Fl.ofInt binary32 30 = Fl.fin false 30 := by
    have h := Fl.ofInt_natCast binary32 30
    simp only [Nat.cast_ofNat] at h
    rw [h, rnd_30]
  rw [h30, factor_400_16, Fl.mul_fin, Bool.xor_false, rnd_velocity]

/-! ## Zero, overflow and sign -/

theorem roundMag_zero (F : Format) : roundMag F (0 : ℚ) = some 0 := by
  simp [roundMag]

theorem Fl.round_zero (F : Format) (s : Bool) : Fl.round F s 0 = Fl.fin s 0 := by
  unfold Fl.round
  rw [roundMag_zero]

theorem Fl.round_cases (F : Format) (s : Bool) (x : ℚ) :
    (∃ r, Fl.round F s x = Fl.fin s r) ∨ Fl.round F s x = Fl.inf s := by
  unfold Fl.round
  cases roundMag F x with
  | none => exact Or.inr rfl
  | some r => exact Or.inl ⟨r, rfl⟩

theorem Fl.ofInt_zero (F : Format) : Fl.ofInt F 0 = Fl.fin false 0 := by
  have h := Fl.ofInt_natCast F 0
  simp only [Nat.cast_zero] at h
  rw [h, Fl.round_zero]

theorem Fl.mul_nan_right (F : Format) (f : Fl) : Fl.mul F f Fl.nan = Fl.nan := by
  cases f <;> rfl

/-- For positive `uint32_t` periods a zero accumulator gives the positive zero. -/
theorem angular_velocity_zero_acc (sp rp : ℕ) (hsp : 0 < sp) (hsp32 : sp < 2 ^ 32)
    (hrp : 0 < rp) (hrp32 : rp < 2 ^ 32) : angular_velocity 0 sp rp = Fl.fin false 0 := by
  obtain ⟨k, hk, -, -⟩ := factor_between sp rp hsp hsp32 hrp hrp32
  unfold angular_velocity
  rw [hk, Fl.ofInt_zero, Fl.mul_fin, zero_mul, Fl.round_zero]
  rfl

/-- The period product of line 109 when a period is zero: the positive zero, or NaN
should the other period convert to an infinity. -/
theorem period_product_zero (F : Format) (sp rp : ℕ) (h : sp = 0 ∨ rp = 0) :
    Fl.mul F (Fl.ofInt F (rp : ℤ)) (Fl.ofInt F (sp : ℤ)) = Fl.fin false 0
      ∨ Fl.mul F (Fl.ofInt F (rp : ℤ)) (Fl.ofInt F (sp : ℤ)) = Fl.nan := by
  rcases h with h | h
  · subst h
    rw [Nat.cast_zero, Fl.ofInt_zero, Fl.ofInt_natCast]
    rcases Fl.round_cases F false (rp : ℚ) with ⟨r, hr⟩ | hr
    · left
      rw [hr, Fl.mul_fin, mul_zero, Fl.round_zero]
      rfl
    · right
      rw [hr]
      simp [Fl.mul]
  · subst h
    rw [Nat.cast_zero, Fl.ofInt_zero, Fl.ofInt_natCast]
    rcases Fl.round_cases F false (sp : ℚ) with ⟨r, hr⟩ | hr
    · left
      rw [hr, Fl.mul_fin, zero_mul, Fl.round_zero]
      rfl
    · right
      rw [hr]
      simp [Fl.mul]

/-- With a zero period the conversion factor of line 109 is `M_PIx2 / 0`: the positive
infinity, or NaN. -/
theorem factor_zero_period (sp rp : ℕ) (h : sp = 0 ∨ rp = 0) :
    M_PIx2_over_windows_x_sample_period_len sp rp = Fl.inf false
      ∨ M_PIx2_over_windows_x_sample_period_len sp rp = Fl.nan := by
  unfold M_PIx2_over_windows_x_sample_period_len
  rcases period_product_zero binary32 sp rp h with hp | hp
  · left
    simp only [hp, M_PIx2_eq, QENC_WINDOWS_eq, TIME_UNIT_CONVERSION_eq, Fl.cvt_fin,
      Fl.round_zero, rnd_M64]
    rw [Fl.div_fin _ _ _ _ _ (by norm_num), zero_div, Fl.round_zero, Fl.mul_fin, mul_zero,
      Fl.round_zero]
    simp [Fl.div, Fl.cvt]
  · right
    simp only [hp, M_PIx2_eq, QENC_WINDOWS_eq, TIME_UNIT_CONVERSION_eq, Fl.cvt_fin, rnd_M64]
    simp [Fl.div, Fl.cvt, Fl.mul]

theorem Fl.round_not (F : Format) (s : Bool) (x : ℚ) :
    Fl.round F (!s) x = Fl.neg (Fl.round F s x) := by
  unfold Fl.round
  cases roundMag F x <;> rfl

theorem Fl.mul_neg_left (F : Format) (f g : Fl) :
    Fl.mul F (Fl.neg f) g = Fl.neg (Fl.mul F f g) := by
  cases f with
  | nan => cases g <;> rfl
  | inf s =>
    cases g with
    | nan => rfl
    | inf t => cases s <;> cases t <;> rfl
    | fin t k =>
      by_cases hk : k = 0
      · simp [Fl.mul, Fl.neg, hk]
      · cases s <;> cases t <;> simp [Fl.mul, Fl.neg, hk]
  | fin s m =>
    cases g with
    | nan => rfl
    | inf t =>
      by_cases hm : m = 0
      · simp [Fl.mul, Fl.neg, hm]
      · cases s <;> cases t <;> simp [Fl.mul, Fl.neg, hm]
    | fin t k =>
      have hx : xor (!s) t = !(xor s t) := by cases s <;> cases t <;> rfl
      show Fl.round F (xor (!s) t) (m * k) = Fl.neg (Fl.round F (xor s t) (m * k))
      rw [hx, Fl.round_not]

theorem Fl.ofInt_neg (F : Format) (n : ℤ) (hn : n ≠ 0) :
    Fl.ofInt F (-n) = Fl.neg (Fl.ofInt F n) := by
  unfold Fl.ofInt
  have hs : decide (-n < 0) = !decide (n < 0) := by
    rcases lt_or_gt_of_ne hn with h | h
    · have h1 : ¬ (-n < 0) := by omega
      simp [h, h1]
    · have h1 : ¬ (n < 0) := by omega
      have h2 : -n < 0 := by omega
      simp [h1, h2]
  rw [hs, abs_neg, Fl.round_not]

theorem neg32_eq_neg (acc : ℤ) (h1 : -2147483648 < acc) (h2 : acc ≤ 2147483647) :
    neg32 acc = -acc := by
  unfold neg32 toInt32
  omega

theorem Fl.ofInt_between (F : Format) (n : ℤ) (b : ℕ) (hp : 1 ≤ F.prec) (hn : n ≠ 0)
    (hb : |n| ≤ 2 ^ b) (hmin : F.emin ≤ 0) (hmax : (b : ℤ) + 1 ≤ F.emax) :
    (Fl.ofInt F n).Between (decide (n < 0)) 0 ((b : ℤ) + 1) := by
  unfold Fl.ofInt
  apply Fl.round_between F _ _ 0 b hp _ _ hmin hmax
  · rw [zpow_zero]
    have h1 : (1 : ℤ) ≤ |n| := Int.one_le_abs hn
    exact_mod_cast h1
  · rw [zpow_natCast]
    exact_mod_cast hb

/-- For an accumulator of the `int32_t` range and positive `uint32_t` periods the angular
velocity is a finite `float`. -/
theorem angular_velocity_fin (acc : ℤ) (sp rp : ℕ) (h1 : -2147483648 ≤ acc)
    (h2 : acc ≤ 2147483647) (hsp : 0 < sp) (hsp32 : sp < 2 ^ 32) (hrp : 0 < rp)
    (hrp32 : rp < 2 ^ 32) : ∃ s r, angular_velocity acc sp rp = Fl.fin s r := by
  by_cases h0 : acc = 0
  · subst h0
    exact ⟨false, 0, angular_velocity_zero_acc sp rp hsp hsp32 hrp hrp32⟩
  · have hK := factor_between sp rp hsp hsp32 hrp hrp32
    have habs : |acc| ≤ 2 ^ 31 := by
      rw [abs_le]
      constructor <;> omega
    have hA := Fl.ofInt_between binary32 acc 31 (by decide) h0 habs (by decide) (by decide)
    obtain ⟨r, hr, -, -⟩ :=
      Fl.mul_between binary32 _ _ _ _ _ _ _ _ (by decide) hA hK (by decide) (by decide)
    exact ⟨_, r, hr⟩

theorem Fl.eq_fin_self (s : Bool) (r : ℚ) : Fl.eq (Fl.fin s r) (Fl.fin s r) = true := by
  simp [Fl.eq]

/-! ## The specification formula in single precision at `acc = 30`, `sp = 400`, `rp = 16` -/

theorem estimate_spec_f32_30_400_16 :
    estimate_spec_f32 30 400 16 = Fl.fin false (8042477 / 32768) := by
  unfold estimate_spec_f32
  have h30 : Fl.ofInt binary32 30 = Fl.fin false 30 := by
    have h := Fl.ofInt_natCast binary32 30
    simp only [Nat.cast_ofNat] at h
    rw [h, rnd_30]
  have h16 : Fl.ofInt binary32 ((16 : ℕ) : ℤ) = Fl.fin false 16 := by
    rw [Fl.ofInt_natCast]; simpa using rnd_16
  have h400 : Fl.ofInt binary32 ((400 : ℕ) : ℤ) = Fl.fin false 400 := by
    rw [Fl.ofInt_natCast]; simpa using rnd_400
  rw [h30, h16, h400, M_PIx2_eq, Fl.lit_of_nonneg _ _ (by norm_num),
    Fl.lit_of_nonneg _ _ (by norm_num), rnd_spec_windows, rnd_spec_time_unit, Fl.mul_fin,
    Fl.mul_fin, Bool.xor_false, rnd_spec_numerator, rnd_spec_prod,
    Fl.div_fin _ _ _ _ _ (by norm_num), Bool.xor_false, rnd_spec_elapsed, Fl.mul_fin,
    Bool.xor_false, rnd_spec_denominator, Fl.div_fin _ _ _ _ _ (by norm_num), Bool.xor_false,
    rnd_spec_velocity]

/-! ## The double-precision steps of line 109 are observable -/

theorem factor_128_10 :
    M_PIx2_over_windows_x_sample_period_len 128 10 = Fl.fin false (10723303 / 262144) := by
  unfold M_PIx2_over_windows_x_sample_period_len
  have h10 : Fl.ofInt binary32 ((10 : ℕ) : ℤ) = Fl.fin false 10 := by
    rw [Fl.ofInt_natCast]; simpa using rnd_10
  have h128 : Fl.ofInt binary32 ((128 : ℕ) : ℤ) = Fl.fin false 128 := by
    rw [Fl.ofInt_natCast]; simpa using rnd_128
  simp only [h10, h128, M_PIx2_eq, QENC_WINDOWS_eq, TIME_UNIT_CONVERSION_eq, Fl.mul_fin,
    Bool.xor_false, rnd_prod_128_10, Fl.cvt_fin, rnd_prod64_128_10, rnd_M64]
  rw [Fl.div_fin _ _ _ _ _ (by norm_num), Bool.xor_false, rnd_elapsed_128_10, Fl.mul_fin,
    Bool.xor_false, rnd_denominator_128_10, Fl.div_fin _ _ _ _ _ (by norm_num),
    Bool.xor_false, rnd_factor64_128_10, Fl.cvt_fin, rnd_factor_128_10]

theorem factor_single_precision_128_10 :
    factor_single_precision 128 10 = Fl.fin false (1340413 / 32768) := by
  unfold factor_single_precision
  have h10 : Fl.ofInt binary32 ((10 : ℕ) : ℤ) = Fl.fin false 10 := by
    rw [Fl.ofInt_natCast]; simpa using rnd_10
  have h128 : Fl.ofInt binary32 ((128 : ℕ) : ℤ) = Fl.fin false 128 := by
    rw [Fl.ofInt_natCast]; simpa using rnd_128
  rw [h10, h128, M_PIx2_eq, Fl.lit_of_nonneg _ _ (by norm_num),
    Fl.lit_of_nonneg _ _ (by norm_num), rnd_spec_windows, rnd_spec_time_unit, Fl.mul_fin,
    Bool.xor_false, rnd_prod_128_10, Fl.div_fin _ _ _ _ _ (by norm_num), Bool.xor_false,
    rnd_single_elapsed_128_10, Fl.mul_fin, Bool.xor_false, rnd_single_denominator_128_10,
    Fl.div_fin _ _ _ _ _ (by norm_num), Bool.xor_false, rnd_single_factor_128_10]

/-- For `sp = 128`, `rp = 10` the factor of line 109 (40.90615463256836) is not what the
line would give with single precision at every step (40.906158447265625). -/
theorem factor_ne_single_precision_128_10 :
    M_PIx2_over_windows_x_sample_period_len 128 10 ≠ factor_single_precision 128 10 := by
  rw [factor_128_10, factor_single_precision_128_10]
  intro h
  injection h with _ hv
  norm_num at hv

theorem angular_velocity_int_min_400_16 :
    angular_velocity (-2147483648) 400 16 = Fl.fin true 17569060864 := by
  unfold angular_velocity
  have hm : Fl.ofInt binary32 (-2147483648) = Fl.fin true 2147483648 := by
    have h := Fl.ofInt_neg_natCast binary32 2147483648 (by norm_num)
    simp only [Nat.cast_ofNat] at h
    rw [h, rnd_int_min]
  rw [hm, factor_400_16, Fl.mul_fin, Bool.xor_false, rnd_velocity_int_min]

/-! ## The claims about the callback -/

/-- C1: read exactly, over the rationals, the value the REPORTRDY branch computes,
`(float)acc * (M_PIx2 / (120 * (rp * sp / 1000000)))`, equals
`acc * M_PIx2 / (120 * (sp * rp / 1000000))` for every accumulator and all periods,
`M_PIx2` being the stored constant. -/
theorem angular_velocity_exact_eq_formula (acc : ℤ) (sp rp : ℕ) :
    angular_velocity_exact acc sp rp
      = (acc : ℚ) * M_PIx2.value / (120 * ((sp : ℚ) * (rp : ℚ) / 1000000)) := by
  unfold angular_velocity_exact
  rw [mul_comm (rp : ℚ) (sp : ℚ), ← mul_div_assoc (acc : ℚ)]

/-- C2 fails as stated: on a SAMPLERDY event the handler does emit a log line, so "no log
line and every global unchanged" is false for the initial globals and a sample event. -/
theorem samplerdy_not_silent :
    ¬ ((qdec_event_handler 400 16 Globals.init
          ⟨nrf_qdec_event_t.NRF_QDEC_EVENT_SAMPLERDY, 1, 0, 0⟩).2 = []
        ∧ (qdec_event_handler 400 16 Globals.init
          ⟨nrf_qdec_event_t.NRF_QDEC_EVENT_SAMPLERDY, 1, 0, 0⟩).1 = Globals.init) := by
  intro h
  have h1 := h.1
  simp [qdec_event_handler] at h1

/-- C2 as amended: on a SAMPLERDY event, from any prior state, the handler leaves every
global unchanged and emits exactly one log line, the unlabelled line `event`. -/
theorem samplerdy_frame (sp rp : ℕ) (g : Globals) (event : nrf_drv_qdec_event_t)
    (h : event.type = nrf_qdec_event_t.NRF_QDEC_EVENT_SAMPLERDY) :
    qdec_event_handler sp rp g event = (g, [⟨"event\r\n", LogArg.none⟩]) := by
  simp [qdec_event_handler, h]

theorem samplerdy_frame_witness :
    (⟨nrf_qdec_event_t.NRF_QDEC_EVENT_SAMPLERDY, 1, 0, 0⟩ : nrf_drv_qdec_event_t).type
        = nrf_qdec_event_t.NRF_QDEC_EVENT_SAMPLERDY
      ∧ qdec_event_handler 400 16 Globals.init
          ⟨nrf_qdec_event_t.NRF_QDEC_EVENT_SAMPLERDY, 1, 0, 0⟩
        = (Globals.init, [⟨"event\r\n", LogArg.none⟩]) :=
  ⟨rfl, samplerdy_frame 400 16 Globals.init _ rfl⟩

/-- C3 fails as stated: for the report sample `acc = 30` the handler does not emit exactly
eight labelled values (it emits eleven). -/
theorem reportrdy_not_eight_values :
    ¬ (labelled_values (qdec_event_handler 400 16 Globals.init
          ⟨nrf_qdec_event_t.NRF_QDEC_EVENT_REPORTRDY, 0, 30, 0⟩).2).length = 8 := by
  simp [qdec_event_handler, report_branch, labelled_values]

/-- C3 as amended: for every REPORTRDY event the handler emits exactly eleven labelled
values in this fixed order: the accumulator as an integer, the accumulator through the
float marker, the sample period, the report period, the 2*pi constant, the windows
constant, the sample period as a float, the report period as a float, the time-unit
constant, the conversion factor and the angular velocity; the unlabelled line `event`
follows. -/
theorem reportrdy_log (sp rp : ℕ) (g : Globals) (event : nrf_drv_qdec_event_t)
    (h : event.type = nrf_qdec_event_t.NRF_QDEC_EVENT_REPORTRDY) :
    (qdec_event_handler sp rp g event).2.map LogEntry.label
        = ["m_accread: %d\n", "m_accread: ", "int_sampleper: %d\n", "int_reportper: %d\n",
           "Pi * 2 : ", "QENC_WINDOWS : ", "f_sampleper : ", "f_reportper : ",
           "TIME_UNIT_CONVERSION : ", "M_PIx2_over_windows_x_sample_period_len : ",
           "angular_velocity : ", "event\r\n"]
      ∧ (qdec_event_handler sp rp g event).2.map LogEntry.arg
        = [LogArg.int event.report_acc, LogArg.float_of_int event.report_acc,
           LogArg.int sp, LogArg.int rp, LogArg.float M_PIx2, LogArg.float QENC_WINDOWS,
           LogArg.float (Fl.ofInt binary32 sp), LogArg.float (Fl.ofInt binary32 rp),
           LogArg.float TIME_UNIT_CONVERSION,
           LogArg.float (M_PIx2_over_windows_x_sample_period_len sp rp),
           LogArg.float (angular_velocity event.report_acc sp rp), LogArg.none]
      ∧ (labelled_values (qdec_event_handler sp rp g event).2).length = 11 := by
  simp [qdec_event_handler, report_branch, labelled_values, h]

theorem reportrdy_log_witness :
    (⟨nrf_qdec_event_t.NRF_QDEC_EVENT_REPORTRDY, 0, 30, 0⟩ : nrf_drv_qdec_event_t).type
        = nrf_qdec_event_t.NRF_QDEC_EVENT_REPORTRDY
      ∧ (labelled_values (qdec_event_handler 400 16 Globals.init
          ⟨nrf_qdec_event_t.NRF_QDEC_EVENT_REPORTRDY, 0, 30, 0⟩).2).length = 11 :=
  ⟨rfl, (reportrdy_log 400 16 Globals.init _ rfl).2.2⟩

/-- C10: for every prior state and every REPORTRDY event, after the handler the globals
mirror that event alone (`m_accread` its acc, `m_accdblread` its accdbl,
`m_report_ready_flag` true, `m_first_report_flag` unchanged), the angular velocity logged is
the one computed from the event's acc and the two periods, and the whole log is the same
from any other prior state. -/
theorem reportrdy_state (sp rp : ℕ) (g : Globals) (event : nrf_drv_qdec_event_t)
    (h : event.type = nrf_qdec_event_t.NRF_QDEC_EVENT_REPORTRDY) :
    (qdec_event_handler sp rp g event).1
        = ⟨true, g.m_first_report_flag, event.report_accdbl, event.report_acc⟩
      ∧ (⟨"angular_velocity : ", LogArg.float (angular_velocity event.report_acc sp rp)⟩
          : LogEntry) ∈ (qdec_event_handler sp rp g event).2
      ∧ ∀ g0 : Globals,
          (qdec_event_handler sp rp g0 event).2 = (qdec_event_handler sp rp g event).2 := by
  simp [qdec_event_handler, report_branch, h]

theorem reportrdy_state_witness :
    (⟨nrf_qdec_event_t.NRF_QDEC_EVENT_REPORTRDY, 0, 30, 7⟩ : nrf_drv_qdec_event_t).type
        = nrf_qdec_event_t.NRF_QDEC_EVENT_REPORTRDY
      ∧ (qdec_event_handler 400 16 ⟨false, false, 99, -5⟩
          ⟨nrf_qdec_event_t.NRF_QDEC_EVENT_REPORTRDY, 0, 30, 7⟩).1 = ⟨true, false, 7, 30⟩ :=
  ⟨rfl, (reportrdy_state 400 16 ⟨false, false, 99, -5⟩ _ rfl).1⟩

/-- C4: for the report sample `acc = 30`, `sp = 400`, `rp = 16` the elapsed time is
`400*16/1000000 = 0.0064` (the `double` the code holds for it is within 1e-18 of that),
and the angular velocity the REPORTRDY branch computes (the `float` 245.43695068359375)
lies within 0.01 of 245.43; so does its exact reading. -/
theorem scenario_30_400_16 :
    ((400 : ℚ) * 16 / 1000000 = 64 / 10000)
      ∧ (∃ t : ℚ,
          Fl.div binary64
              (Fl.cvt binary64
                (Fl.mul binary32 (Fl.ofInt binary32 ((16 : ℕ) : ℤ))
                  (Fl.ofInt binary32 ((400 : ℕ) : ℤ))))
              TIME_UNIT_CONVERSION = Fl.fin false t
            ∧ |t - 64 / 10000| ≤ 1 / 10 ^ 18)
      ∧ angular_velocity 30 400 16 = Fl.fin false (4021239 / 16384)
      ∧ |(angular_velocity 30 400 16).value - 24543 / 100| ≤ 1 / 100
      ∧ |angular_velocity_exact 30 400 16 - 24543 / 100| ≤ 1 / 100 := by
  refine ⟨by norm_num, ⟨_, report_period_400_16, ?_⟩, angular_velocity_30_400_16, ?_, ?_⟩
  · rw [abs_le]
    constructor <;> norm_num
  · rw [angular_velocity_30_400_16]
    simp only [Fl.value]
    rw [abs_le]
    constructor <;> norm_num
  · unfold angular_velocity_exact
    rw [M_PIx2_eq]
    simp only [Fl.value]
    rw [abs_le]
    constructor <;> norm_num

/-- C6: for all positive periods (of the `uint32_t` range the resolver returns) a report
whose accumulator is 0 makes the handler compute an angular velocity of exactly `+0.0`. -/
theorem zero_accumulator_gives_zero (sp rp : ℕ) (hsp : 0 < sp) (hsp32 : sp < 2 ^ 32)
    (hrp : 0 < rp) (hrp32 : rp < 2 ^ 32) : angular_velocity 0 sp rp = Fl.fin false 0 :=
  angular_velocity_zero_acc sp rp hsp hsp32 hrp hrp32

theorem zero_accumulator_gives_zero_witness :
    0 < 400 ∧ 400 < 2 ^ 32 ∧ 0 < 16 ∧ 16 < 2 ^ 32
      ∧ angular_velocity 0 400 16 = Fl.fin false 0 :=
  ⟨by decide, by decide, by decide, by decide,
    zero_accumulator_gives_zero 400 16 (by decide) (by decide) (by decide) (by decide)⟩

/-- C8: for every accumulator, if the sample period or the report period is 0 the
REPORTRDY computation checks nothing and still delivers a value: the division by zero is
carried through and the angular velocity is +infinity, -infinity or NaN. -/
theorem zero_period_gives_inf_or_nan (acc : ℤ) (sp rp : ℕ) (h : sp = 0 ∨ rp = 0) :
    angular_velocity acc sp rp = Fl.inf false ∨ angular_velocity acc sp rp = Fl.inf true
      ∨ angular_velocity acc sp rp = Fl.nan := by
  unfold angular_velocity
  rcases factor_zero_period sp rp h with hK | hK
  · rw [hK]
    unfold Fl.ofInt
    rcases Fl.round_cases binary32 (decide (acc < 0)) ((|acc| : ℤ) : ℚ) with ⟨r, hr⟩ | hr
    · rw [hr]
      by_cases hr0 : r = 0
      · right; right
        simp [Fl.mul, hr0]
      · cases hs : decide (acc < 0)
        · left
          simp [Fl.mul, hr0]
        · right; left
          simp [Fl.mul, hr0]
    · rw [hr]
      cases hs : decide (acc < 0)
      · left
        simp [Fl.mul]
      · right; left
        simp [Fl.mul]
  · right; right
    rw [hK, Fl.mul_nan_right]

theorem zero_period_gives_inf_or_nan_witness :
    ((0 : ℕ) = 0 ∨ (16 : ℕ) = 0)
      ∧ (angular_velocity 30 0 16 = Fl.inf false ∨ angular_velocity 30 0 16 = Fl.inf true
          ∨ angular_velocity 30 0 16 = Fl.nan) :=
  ⟨Or.inl rfl, zero_period_gives_inf_or_nan 30 0 16 (Or.inl rfl)⟩

/-- C9: the constant `M_PIx2`, initialised from the double product `2*3.1415927410125`
converted to `float`, is 13176795 / 2^21, which is the single-precision rounding of
`2*pi`, and its decimal expansion begins 6.2831854820251. -/
theorem M_PIx2_is_float_two_pi :
    M_PIx2 = Fl.fin false (13176795 / 2097152)
      ∧ roundMag binary32 (2 * Real.pi) = some (13176795 / 2097152)
      ∧ ⌊M_PIx2.value * 10 ^ 13⌋ = 62831854820251 := by
  have hl : (31415926535 / 10000000000 : ℝ) < Real.pi :=
    lt_trans (by norm_num) Real.pi_gt_d20
  have hu : Real.pi < (31415926536 / 10000000000 : ℝ) :=
    lt_trans Real.pi_lt_d20 (by norm_num)
  refine ⟨M_PIx2_eq, ?_, ?_⟩
  · have h := roundMag_eq binary32 (2 * Real.pi) 2 13176795
      (by norm_num; linarith) (by norm_num; linarith) (by decide)
      (by norm_num [binary32]; linarith) (by norm_num [binary32]; linarith)
      (by norm_num [binary32])
    rw [h]
    norm_num [binary32]
  · rw [M_PIx2_eq]
    simp only [Fl.value]
    rw [Int.floor_eq_iff]
    constructor <;> norm_num

/-- C5 fails as stated: at the accumulator `-2^31`, whose negation in `int32_t` is itself,
the angular velocity of the negated accumulator is not the negation of the angular
velocity (`sp = 400`, `rp = 16`). -/
theorem int_min_breaks_sign_symmetry :
    ¬ (Fl.eq (angular_velocity (neg32 (-2147483648)) 400 16)
        (Fl.neg (angular_velocity (-2147483648) 400 16)) = true) := by
  have hn : neg32 (-2147483648) = -2147483648 := by decide
  rw [hn, angular_velocity_int_min_400_16]
  simp [Fl.neg, Fl.eq]

/-- C5 as amended: for every accumulator of the `int32_t` range other than `-2^31` and all
positive periods of the `uint32_t` range, the angular velocity computed for the negated
accumulator equals (C comparison `==`) the negation of the one computed for the
accumulator. -/
theorem sign_symmetry (acc : ℤ) (sp rp : ℕ) (h1 : -2147483648 < acc) (h2 : acc ≤ 2147483647)
    (hsp : 0 < sp) (hsp32 : sp < 2 ^ 32) (hrp : 0 < rp) (hrp32 : rp < 2 ^ 32) :
    Fl.eq (angular_velocity (neg32 acc) sp rp) (Fl.neg (angular_velocity acc sp rp))
      = true := by
  rw [neg32_eq_neg acc h1 h2]
  by_cases h0 : acc = 0
  · subst h0
    rw [neg_zero, angular_velocity_zero_acc sp rp hsp hsp32 hrp hrp32]
    simp [Fl.neg, Fl.eq]
  · have hneg : angular_velocity (-acc) sp rp = Fl.neg (angular_velocity acc sp rp) := by
      unfold angular_velocity
      rw [Fl.ofInt_neg binary32 acc h0, Fl.mul_neg_left]
    obtain ⟨s, r, hr⟩ :=
      angular_velocity_fin acc sp rp (le_of_lt h1) h2 hsp hsp32 hrp hrp32
    rw [hneg, hr]
    exact Fl.eq_fin_self _ _

theorem sign_symmetry_witness :
    (-2147483648 : ℤ) < 30 ∧ (30 : ℤ) ≤ 2147483647 ∧ 0 < 400 ∧ 400 < 2 ^ 32 ∧ 0 < 16
      ∧ 16 < 2 ^ 32
      ∧ Fl.eq (angular_velocity (neg32 30) 400 16) (Fl.neg (angular_velocity 30 400 16))
          = true :=
  ⟨by decide, by decide, by decide, by decide, by decide, by decide,
    sign_symmetry 30 400 16 (by decide) (by decide) (by decide) (by decide) (by decide)
      (by decide)⟩

/-- C7 fails as stated: for `acc = 30`, `sp = 400`, `rp = 16` the value the handler
computes (245.43695068359375) is not the single-precision evaluation of the
specification formula in its written order (245.43692016601562). -/
theorem not_single_precision_formula :
    ¬ (angular_velocity 30 400 16 = estimate_spec_f32 30 400 16) := by
  rw [angular_velocity_30_400_16, estimate_spec_f32_30_400_16]
  intro h
  injection h with _ hv
  norm_num at hv

/-- C7 as amended: the REPORTRDY branch first computes the conversion factor
`M_PIx2 / (120.00 * (f_reportper * f_sampleper / 1000000.00))`, the period product in
single precision, the two divisions and the multiplication by 120 in double precision,
the quotient rounded once to single precision; the angular velocity is the
single-precision product of `(float)acc` with that factor, and for every accumulator of
the `int32_t` range and all positive periods of the `uint32_t` range it is a finite
value, the factor being positive. -/
theorem mixed_precision_formula (acc : ℤ) (sp rp : ℕ) (h1 : -2147483648 ≤ acc)
    (h2 : acc ≤ 2147483647) (hsp : 0 < sp) (hsp32 : sp < 2 ^ 32) (hrp : 0 < rp)
    (hrp32 : rp < 2 ^ 32) :
    angular_velocity acc sp rp
        = Fl.mul binary32 (Fl.ofInt binary32 acc)
            (Fl.cvt binary32
              (Fl.div binary64 (Fl.cvt binary64 M_PIx2)
                (Fl.mul binary64 (Fl.fin false 120)
                  (Fl.div binary64
                    (Fl.cvt binary64
                      (Fl.mul binary32 (Fl.ofInt binary32 rp) (Fl.ofInt binary32 sp)))
                    (Fl.fin false 1000000)))))
      ∧ (∃ k, M_PIx2_over_windows_x_sample_period_len sp rp = Fl.fin false k ∧ 0 < k)
      ∧ ∃ s r, angular_velocity acc sp rp = Fl.fin s r := by
  refine ⟨?_, ?_, angular_velocity_fin acc sp rp h1 h2 hsp hsp32 hrp hrp32⟩
  · unfold angular_velocity M_PIx2_over_windows_x_sample_period_len
    rw [QENC_WINDOWS_eq, TIME_UNIT_CONVERSION_eq]
  · obtain ⟨k, hk, hk1, -⟩ := factor_between sp rp hsp hsp32 hrp hrp32
    exact ⟨k, hk, lt_of_lt_of_le (zpow_pos (by norm_num) _) hk1⟩

theorem mixed_precision_formula_witness :
    (-2147483648 : ℤ) ≤ 30 ∧ (30 : ℤ) ≤ 2147483647 ∧ 0 < 400 ∧ 400 < 2 ^ 32 ∧ 0 < 16
      ∧ 16 < 2 ^ 32 ∧ ∃ s r, angular_velocity 30 400 16 = Fl.fin s r :=
  ⟨by decide, by decide, by decide, by decide, by decide, by decide,
    (mixed_precision_formula 30 400 16 (by decide) (by decide) (by decide) (by decide)
      (by decide) (by decide)).2.2⟩

end QdecTester
